import Mathlib

/-!
Verification of the script-and-audio assembly pipeline of the
upsc-daily-automation repository.

Python strings are embedded as `List Char`; `len` is `List.length`,
`str.strip()` is `strip`, `str.split(sep)` is `splitBy`, `str.lower()` is
`pyLower`, and the substring test `a in b` is `containsSub`.  Each embedded
function carries a comment naming the source function it is translated from.
-/

namespace Upsc

abbrev Str := List Char

/-- Characters stripped by Python's `str.strip()` (ASCII whitespace). -/
def pySpace (c : Char) : Bool :=
  c == ' ' || c == '\t' || c == '\n' || c == '\r' || c == '\x0b' || c == '\x0c'

/-- Drop trailing characters satisfying `pySpace` (structural version). -/
def dropTrail : Str → Str
  | [] => []
  | c :: cs =>
    match dropTrail cs with
    | [] => if pySpace c then [] else [c]
    | d :: ds => c :: d :: ds

/-- Python `str.strip()`: drop leading and trailing whitespace. -/
def strip (l : Str) : Str := dropTrail (l.dropWhile pySpace)

/-- Python `str.split(sep)` for a one-character separator `p`:
segments between separator occurrences, empties kept. -/
def splitBy (p : Char → Bool) : Str → List Str
  | [] => [[]]
  | c :: r =>
    if p c then [] :: splitBy p r
    else
      match splitBy p r with
      | [] => [[c]]
      | h :: t => (c :: h) :: t

/-- Python `str.lower()` (the texts involved are ASCII where it matters). -/
def pyLower (l : Str) : Str := l.map Char.toLower

/-- Does `hay` start with `needle`? -/
def startsWith : Str → Str → Bool
  | [], _ => true
  | _ :: _, [] => false
  | c :: cs, d :: ds => c == d && startsWith cs ds

/-- Python substring test `needle in hay`. -/
def containsSub (needle : Str) : Str → Bool
  | [] => startsWith needle []
  | c :: rest => startsWith needle (c :: rest) || containsSub needle rest

/-- Convenience: the character list of a string literal. -/
def toL (s : String) : Str := s.data

/-! ## Chunking (`UPSCVideoCreator.split_text_into_chunks`,
`src/scripts/create_upsc_video.py` lines 264-286) -/

/-- The normalization on line 265:
`text.replace('!', '.').replace('?', '.')`. -/
def normalizeText (l : Str) : Str :=
  (l.map (fun c => if c == '!' then '.' else c)).map
    (fun c => if c == '?' then '.' else c)

/-- Separator predicate for `split('.')`. -/
def isDot (c : Char) : Bool := c == '.'

/-- The `for sentence in sentences` loop of `split_text_into_chunks`
(lines 266-284), with `current` the accumulator string and the final
`if current: chunks.append(current.strip())` folded into the base case. -/
def packLoop (maxc : Nat) : List Str → Str → List Str
  | [], current => if current.isEmpty then [] else [strip current]
  | seg :: rest, current =>
    let sentence := strip seg
    if sentence.isEmpty then packLoop maxc rest current
    else
      let swp := sentence ++ ['.', ' ']
      if current.length + swp.length > maxc then
        (if current.isEmpty then [] else [strip current]) ++ packLoop maxc rest swp
      else
        packLoop maxc rest (current ++ swp)

/-- `UPSCVideoCreator.split_text_into_chunks(text, max_chars)`. -/
def split_text_into_chunks (text : Str) (maxc : Nat) : List Str :=
  packLoop maxc (splitBy isDot (normalizeText text)) []

/-- The non-empty trimmed sentences of a text: `split('.')`, strip each,
drop empties.  Applied to the normalized input this is exactly the sentence
stream the chunking loop consumes. -/
def sentencesOf (l : Str) : List Str :=
  ((splitBy isDot l).map strip).filter (fun s => !s.isEmpty)

/-! ### Abstract view of the packing loop

`curOf g` is the accumulator string holding the sentence group `g`
(each sentence followed by `". "`), and `renderChunk g` is the chunk text
that `current.strip()` produces for that group.  `packGroups` mirrors
`packLoop` at the level of sentence groups. -/

/-- The accumulator string holding sentence group `g`. -/
def curOf : List Str → Str
  | [] => []
  | s :: g => s ++ '.' :: ' ' :: curOf g

/-- The chunk text produced by stripping the accumulator of group `g`. -/
def renderChunk : List Str → Str
  | [] => []
  | s :: g => if g.isEmpty then s ++ ['.'] else s ++ '.' :: ' ' :: renderChunk g

/-- `packLoop` viewed on sentence groups instead of accumulator strings. -/
def packGroups (maxc : Nat) : List Str → List Str → List (List Str)
  | [], g => if g.isEmpty then [] else [g]
  | seg :: rest, g =>
    let s := strip seg
    if s.isEmpty then packGroups maxc rest g
    else if (curOf g).length + (s ++ ['.', ' ']).length > maxc then
      (if g.isEmpty then [] else [g]) ++ packGroups maxc rest [s]
    else
      packGroups maxc rest (g ++ [s])

/-- Claim C1 exactly as stated: every chunk's length is at most `maxc`, or
the chunk is exactly one sentence (with its restored period) whose length
alone strictly exceeds `maxc`. -/
def claimC1 (text : Str) (maxc : Nat) : Prop :=
  ∀ chunk ∈ split_text_into_chunks text maxc,
    chunk.length ≤ maxc ∨
      ∃ s ∈ sentencesOf (normalizeText text), chunk = s ++ ['.'] ∧ maxc < s.length

/-! ## Audio assembly (`UPSCVideoCreator.generate_audio`,
`src/scripts/create_upsc_video.py` lines 314-355) -/

/-- The per-chunk synthesis loop of `generate_audio` (lines 324-334):
`succ i` says whether synthesis of chunk number `i` (1-based) succeeds;
the result is the ordered list of surviving chunk contents, standing for
the `chunk_files` list (a chunk file's audio content is identified with
its chunk text). -/
def audioLoop : List Str → (Nat → Bool) → Nat → List Str
  | [], _, _ => []
  | c :: rest, succ, i =>
    if succ i then c :: audioLoop rest succ (i + 1)
    else audioLoop rest succ (i + 1)

/-- `UPSCVideoCreator.generate_audio(script, output_path)`: split with
`max_chars=4000`, synthesize chunk by chunk (outcomes given by `succ`),
then assemble the narration artifact.  `none` models `return False` with
no artifact written; `some a` models success with artifact content `a`
(one surviving chunk file is copied with `cp`, several are concatenated
in `chunk_files` order via the ffmpeg concat list). -/
def generate_audio (script : Str) (succ : Nat → Bool) : Option Str :=
  let chunks := split_text_into_chunks script 4000
  match audioLoop chunks succ 1 with
  | [] => none
  | [f] => some f
  | f :: g :: fs => some ((f :: g :: fs).flatten)

/-! ## Script generation (`UPSCScriptGenerator`,
`src/scripts/generate_upsc_script.py`) -/

/-- An article record as stored in the daily news JSON document. -/
structure Article where
  title : Str
  summary : Str
  link : Str
  source : Str
  published : Str
deriving DecidableEq

/-- Outcome of one `requests.post` generation call inside
`generate_single_news_item`: `raise` = the call raised (timeout etc.);
`httpError` = non-200 status; `noCandidates` = status 200 but `candidates`
missing or empty; `badContent` = status 200 with candidates but
`content`/`parts` malformed, so that extracting the text raises;
`ok t` = a well-formed response carrying text `t`. -/
inductive GenResponse where
  | raise
  | httpError
  | noCandidates
  | badContent
  | ok (text : Str)
deriving DecidableEq

/-- The `news_numbers_hindi` ordinal list (lines 28-29 and 111-112). -/
def news_numbers_hindi : List Str :=
  [toL ("पहली"), toL ("दूसरी"), toL ("तीसरी"), toL ("चौथी"), toL ("पांचवीं"),
   toL ("छठी"), toL ("सातवीं"), toL ("आठवीं"), toL ("नौवीं"), toL ("दसवीं")]

/-- `UPSCScriptGenerator.create_fallback_item(news_article, item_number)`
(lines 109-116): the deterministic fallback body.  The list indexing
`news_numbers_hindi[item_number-1]` is total for the item numbers 1-10
actually used. -/
def create_fallback_item (a : Article) (item_number : Nat) : Str :=
  (news_numbers_hindi.getD (item_number - 1) []) ++ toL (" खबर।\n") ++
    a.title ++
    toL (" के बारे में आज महत्वपूर्ण जानकारी मिली है। यह खबर भारत और अंतर्राष्ट्रीय संबंधों के लिए महत्वपूर्ण है। विस्तृत जानकारी जल्द ही उपलब्ध होगी।\nUPSC में यह सामान्य अध्ययन से पूछा जा सकता है।")

/-- Python `len(text.split())`: the number of maximal whitespace-free words. -/
def wordCount (l : Str) : Nat :=
  ((splitBy pySpace l).filter (fun w => !w.isEmpty)).length

/-- `UPSCScriptGenerator.generate_single_news_item(news_article, item_number)`
(lines 25-107), with the two `requests.post` calls abstracted by `oracle`
(`oracle 0` is the first call, `oracle 1` the retry issued when the first
text has fewer than 80 words).  Malformed first responses and exceptions
fall back via `create_fallback_item`; a too-short text triggers one retry
whose well-formed text replaces it; a retry with non-success status or no
candidates leaves the original short text in place; a retry whose candidate
is malformed raises inside the `try` block and falls back. -/
def generate_single_news_item (a : Article) (item_number : Nat)
    (oracle : Nat → GenResponse) : Str :=
  match oracle 0 with
  | .raise => create_fallback_item a item_number
  | .httpError => create_fallback_item a item_number
  | .noCandidates => create_fallback_item a item_number
  | .badContent => create_fallback_item a item_number
  | .ok t =>
    if wordCount (strip t) < 80 then
      match oracle 1 with
      | .raise => create_fallback_item a item_number
      | .httpError => strip t
      | .noCandidates => strip t
      | .badContent => create_fallback_item a item_number
      | .ok t2 => strip t2
    else strip t

/-- Number of `requests.post` generation calls `generate_single_news_item`
issues against a given oracle: one for the first call, plus one when the
too-short retry of lines 94-101 fires. -/
def numCalls (oracle : Nat → GenResponse) : Nat :=
  match oracle 0 with
  | .ok t => if wordCount (strip t) < 80 then 2 else 1
  | _ => 1

/-- A first response that is missing or malformed (every case of lines
70-87 that reaches `create_fallback_item` before any text is extracted). -/
def badFirst : GenResponse → Prop
  | .raise => True
  | .httpError => True
  | .noCandidates => True
  | .badContent => True
  | .ok _ => False

/-- The `for i in range(10)` loop of `generate_hindi_script`
(lines 133-147): `fuel` counts remaining iterations and `i` is the index;
the loop breaks as soon as `i` reaches the end of the article list. -/
def scriptItemsGo (articles : List Article) (gen : Article → Nat → Str) :
    Nat → Nat → List Str
  | 0, _ => []
  | fuel + 1, i =>
    match articles.get? i with
    | some a => gen a (i + 1) :: scriptItemsGo articles gen fuel (i + 1)
    | none => []

/-- The `news_items` list built by
`UPSCScriptGenerator.generate_hindi_script` (lines 132-147), with the
per-item generation call abstracted by `gen`. -/
def news_items (articles : List Article) (gen : Article → Nat → Str) :
    List Str :=
  scriptItemsGo articles gen 10 0

/-- The final assembly of `generate_hindi_script` (line 155):
`intro + "\n\n".join(news_items) + outro`. -/
def generate_hindi_script (articles : List Article)
    (gen : Article → Nat → Str) (intro outro : Str) : Str :=
  intro ++ List.intercalate (toL ("\n\n")) (news_items articles gen) ++ outro

/-! ## News filtering and deduplication (`UPSCNewsCollector`,
`src/scripts/fetch_upsc_news.py`) -/

/-- The `skip_keywords` list of `is_upsc_relevant` (lines 84-85). -/
def skip_keywords : List Str :=
  [toL ("cricket"), toL ("bollywood"), toL ("film"), toL ("actor"),
   toL ("actress"), toL ("movie"), toL ("celebrity"), toL ("ipl"),
   toL ("football match"), toL ("tennis match")]

/-- The `upsc_keywords` list (lines 42-77), in source order
(`mission` appears twice there, as here). -/
def upsc_keywords : List Str :=
  [toL ("supreme court"), toL ("parliament"), toL ("lok sabha"),
   toL ("rajya sabha"), toL ("bill"), toL ("amendment"),
   toL ("president"), toL ("prime minister"), toL ("chief minister"),
   toL ("governor"), toL ("cabinet"), toL ("ministry"),
   toL ("election"), toL ("electoral"), toL ("constitution"),
   toL ("article"), toL ("act"), toL ("law"), toL ("judiciary"),
   toL ("gdp"), toL ("inflation"), toL ("budget"), toL ("fiscal"),
   toL ("monetary"), toL ("reserve bank"), toL ("rbi"),
   toL ("world bank"), toL ("imf"), toL ("trade"), toL ("export"),
   toL ("import"), toL ("gst"), toL ("tax"), toL ("subsidy"),
   toL ("disinvestment"), toL ("privatization"), toL ("fdi"),
   toL ("stock market"), toL ("sensex"), toL ("nifty"),
   toL ("india"), toL ("pakistan"), toL ("china"), toL ("usa"),
   toL ("russia"), toL ("treaty"), toL ("agreement"), toL ("summit"),
   toL ("united nations"), toL ("brics"), toL ("g20"), toL ("asean"),
   toL ("saarc"), toL ("nato"), toL ("bilateral"),
   toL ("foreign policy"), toL ("diplomatic"), toL ("ambassador"),
   toL ("isro"), toL ("drdo"), toL ("chandrayaan"), toL ("gaganyaan"),
   toL ("satellite"), toL ("mission"), toL ("space"),
   toL ("artificial intelligence"), toL ("quantum"),
   toL ("semiconductor"), toL ("technology"), toL ("research"),
   toL ("vaccine"), toL ("covid"), toL ("health"), toL ("pandemic"),
   toL ("climate change"), toL ("global warming"),
   toL ("paris agreement"), toL ("cop"), toL ("pollution"),
   toL ("wildlife"), toL ("forest"), toL ("biodiversity"),
   toL ("conservation"), toL ("renewable energy"), toL ("solar"),
   toL ("wind energy"), toL ("electric vehicle"),
   toL ("earthquake"), toL ("cyclone"), toL ("flood"), toL ("drought"),
   toL ("tsunami"), toL ("landslide"),
   toL ("nobel prize"), toL ("bharat ratna"), toL ("padma"),
   toL ("award"), toL ("medal"), toL ("olympic"),
   toL ("scheme"), toL ("yojana"), toL ("mission"), toL ("programme"),
   toL ("initiative"), toL ("policy"),
   toL ("swachh bharat"), toL ("ayushman"), toL ("ujjwala"),
   toL ("pmay"), toL ("mudra")]

/-- `UPSCNewsCollector.is_upsc_relevant(title, summary)` (lines 79-91).
Note the source joins title and summary with a single space before
lowercasing: `(title + " " + summary).lower()`. -/
def is_upsc_relevant (title summary : Str) : Bool :=
  let text := pyLower (title ++ [' '] ++ summary)
  if skip_keywords.any (fun w => containsSub w text) then false
  else upsc_keywords.any (fun w => containsSub w text)

/-- The relevance test as claim C8 words it: the lowercased concatenation
of title and summary (no separator) contains at least one relevance
keyword and no exclusion keyword.  Written from the claim's words, for
comparison with `is_upsc_relevant`. -/
def claimC8_relevant (title summary : Str) : Bool :=
  let text := pyLower (title ++ summary)
  upsc_keywords.any (fun w => containsSub w text) &&
    !(skip_keywords.any (fun w => containsSub w text))

/-- The 50-character case-folded title key used for deduplication
(line 138): `article['title'].lower()[:50]`. -/
def title_key (a : Article) : Str := (pyLower a.title).take 50

/-- The deduplication loop of `fetch_all_news` (lines 134-141), with
`seen` the set of already-seen title keys. -/
def dedupLoop : List Article → List Str → List Article
  | [], _ => []
  | a :: rest, seen =>
    if seen.contains (title_key a) then dedupLoop rest seen
    else a :: dedupLoop rest (title_key a :: seen)

/-- The priority-source allow-list (line 146). -/
def priority_sources : List Str :=
  [toL ("pib"), toL ("drishti_ias"), toL ("vision_ias"), toL ("mea_india")]

/-- First component of the two-part sort key on lines 148-151. -/
def priRank (a : Article) : Nat :=
  if priority_sources.contains a.source then 0 else 1

/-- The total order realized by the sort key on lines 148-151: primary key
priority-source membership, secondary key descending summary length. -/
def sortLE (a b : Article) : Bool :=
  decide (priRank a < priRank b) ||
    (priRank a == priRank b && decide (b.summary.length ≤ a.summary.length))

/-- Ordered insertion for `sortArticles`. -/
def insertSorted (a : Article) : List Article → List Article
  | [] => [a]
  | b :: rest => if sortLE b a then b :: insertSorted a rest else a :: b :: rest

/-- The `unique_articles.sort(key=...)` call (lines 148-151), modelled as an
insertion sort by `sortLE`; only the preservation of the element multiset
matters for the deduplication claims. -/
def sortArticles : List Article → List Article
  | [] => []
  | a :: rest => insertSorted a (sortArticles rest)

/-- The pure tail of `UPSCNewsCollector.fetch_all_news` (lines 133-153)
applied to the collected article sequence: deduplicate by title key with
first occurrence winning, rank, and return the top 15. -/
def fetch_all_news_post (all_articles : List Article) : List Article :=
  (sortArticles (dedupLoop all_articles [])).take 15

/-! ## Lemmas on stripping and splitting -/

theorem dropWhile_length_le (p : Char → Bool) :
    ∀ l : Str, (l.dropWhile p).length ≤ l.length
  | [] => Nat.le_refl 0
  | c :: cs => by
    rw [List.dropWhile_cons]
    split
    · exact Nat.le_trans (dropWhile_length_le p cs) (Nat.le_succ _)
    · exact Nat.le_refl _

/-- Unfolding equation for `dropTrail` on a cons cell. -/
theorem dropTrail_cons_eq (c : Char) (cs : Str) :
    dropTrail (c :: cs) =
      match dropTrail cs with
      | [] => if pySpace c then [] else [c]
      | d :: ds => c :: d :: ds := rfl

theorem dropTrail_length_le : ∀ l : Str, (dropTrail l).length ≤ l.length
  | [] => Nat.le_refl 0
  | c :: cs => by
    have ih := dropTrail_length_le cs
    rw [dropTrail_cons_eq]
    cases h : dropTrail cs with
    | nil =>
      by_cases hc : pySpace c
      · simp [hc]
      · simp [hc]
    | cons d ds =>
      rw [h] at ih
      simpa using ih

theorem strip_length_le (l : Str) : (strip l).length ≤ l.length :=
  Nat.le_trans (dropTrail_length_le _) (dropWhile_length_le _ _)

/-- The head of a nonempty `dropTrail (c :: cs)` is `c`. -/
theorem dropTrail_cons (c : Char) (cs : Str) :
    dropTrail (c :: cs) = [] ∨ ∃ ds, dropTrail (c :: cs) = c :: ds := by
  rw [dropTrail_cons_eq]
  cases h : dropTrail cs with
  | nil =>
    by_cases hc : pySpace c
    · exact Or.inl (by simp [hc])
    · exact Or.inr ⟨[], by simp [hc]⟩
  | cons d ds => exact Or.inr ⟨d :: ds, rfl⟩

/-- A nonempty stripped string starts with a non-whitespace character. -/
theorem strip_head (l : Str) (c : Char) (cs : Str) (h : strip l = c :: cs) :
    pySpace c = false := by
  unfold strip at h
  cases hd : l.dropWhile pySpace with
  | nil => rw [hd] at h; simp [dropTrail] at h
  | cons d ds =>
    have hdhead : pySpace d = false := by
      have := List.head_dropWhile_not pySpace (l := l)
      rw [hd] at this
      simpa using this (by simp)
    rw [hd] at h
    rcases dropTrail_cons d ds with h2 | ⟨es, h2⟩
    · rw [h2] at h; exact absurd h (by simp)
    · rw [h2] at h
      cases h
      exact hdhead

/-- From `strip s = s` and `s = c :: cs`, the head is not whitespace. -/
theorem strip_self_head (s : Str) (c : Char) (cs : Str)
    (hs : strip s = s) (he : s = c :: cs) : pySpace c = false :=
  strip_head s c cs (hs.trans he)

/-- Dropping a trailing space commutes out of `dropTrail`. -/
theorem dropTrail_append_space : ∀ l : Str, dropTrail (l ++ [' ']) = dropTrail l
  | [] => by simp [dropTrail, pySpace]
  | c :: cs => by
    have ih := dropTrail_append_space cs
    rw [List.cons_append, dropTrail_cons_eq, ih, dropTrail_cons_eq]

/-- `dropTrail` leaves a string ending in a non-space character unchanged. -/
theorem dropTrail_concat (c : Char) (hc : pySpace c = false) :
    ∀ l : Str, dropTrail (l ++ [c]) = l ++ [c]
  | [] => by simp [dropTrail, hc]
  | d :: ds => by
    have ih := dropTrail_concat c hc ds
    rw [List.cons_append, dropTrail_cons_eq, ih]
    cases h : ds ++ [c] with
    | nil => exact absurd h (by simp)
    | cons e es => rfl

theorem dropTrail_idem : ∀ l : Str, dropTrail (dropTrail l) = dropTrail l
  | [] => rfl
  | c :: cs => by
    have ih := dropTrail_idem cs
    rw [dropTrail_cons_eq]
    cases h : dropTrail cs with
    | nil =>
      by_cases hc : pySpace c
      · simp [hc, dropTrail]
      · simp [hc, dropTrail]
    | cons d ds =>
      rw [h] at ih
      rw [dropTrail_cons_eq, ih]

theorem strip_idem (l : Str) : strip (strip l) = strip l := by
  cases h : strip l with
  | nil => rfl
  | cons c cs =>
    have hc : pySpace c = false := strip_head l c cs h
    show dropTrail (List.dropWhile pySpace (c :: cs)) = c :: cs
    rw [List.dropWhile_cons, if_neg (by simp [hc])]
    calc dropTrail (c :: cs)
        = dropTrail (dropTrail (List.dropWhile pySpace l)) := by
          rw [show dropTrail (List.dropWhile pySpace l) = c :: cs from h]
      _ = dropTrail (List.dropWhile pySpace l) := dropTrail_idem _
      _ = c :: cs := h

theorem membership_dropWhile (p : Char → Bool) (c : Char) :
    ∀ l : Str, c ∈ l.dropWhile p → c ∈ l
  | [] => by simp
  | d :: ds => by
    rw [List.dropWhile_cons]
    split
    · intro h
      exact List.mem_cons_of_mem _ (membership_dropWhile p c ds h)
    · exact id

theorem membership_dropTrail (c : Char) :
    ∀ l : Str, c ∈ dropTrail l → c ∈ l
  | [] => by simp [dropTrail]
  | d :: ds => by
    rw [dropTrail_cons_eq]
    cases h : dropTrail ds with
    | nil =>
      by_cases hd : pySpace d
      · simp [hd]
      · intro hm
        simp [hd] at hm
        simp [hm]
    | cons e es =>
      intro hm
      rcases List.mem_cons.1 hm with h1 | h1
      · simp [h1]
      · have h2 : c ∈ dropTrail ds := by rw [h]; exact h1
        exact List.mem_cons_of_mem _ (membership_dropTrail c ds h2)

theorem membership_strip (c : Char) (l : Str) (h : c ∈ strip l) : c ∈ l :=
  membership_dropWhile pySpace c l (membership_dropTrail c _ h)

/-- Unfolding equation for `splitBy` on a cons cell. -/
theorem splitBy_cons_eq (p : Char → Bool) (c : Char) (r : Str) :
    splitBy p (c :: r) =
      if p c then [] :: splitBy p r
      else
        match splitBy p r with
        | [] => [[c]]
        | h :: t => (c :: h) :: t := rfl

theorem splitBy_ne_nil (p : Char → Bool) : ∀ l : Str, splitBy p l ≠ []
  | [] => by simp [splitBy]
  | c :: cs => by
    rw [splitBy_cons_eq]
    by_cases h : p c
    · simp [h]
    · rw [if_neg (by simp [h])]
      cases hs : splitBy p cs <;> simp

/-- Segments produced by `splitBy p` contain no separator character. -/
theorem splitBy_sep_free (p : Char → Bool) :
    ∀ l : Str, ∀ seg ∈ splitBy p l, ∀ c ∈ seg, p c = false
  | [] => by
    intro seg hseg c hc
    simp [splitBy] at hseg
    subst hseg
    simp at hc
  | d :: ds => by
    intro seg hseg c hc
    rw [splitBy_cons_eq] at hseg
    by_cases hd : p d
    · rw [if_pos hd] at hseg
      rcases List.mem_cons.1 hseg with h1 | h1
      · subst h1; simp at hc
      · exact splitBy_sep_free p ds seg h1 c hc
    · have hd' : p d = false := by simpa using hd
      rw [if_neg (by simp [hd'])] at hseg
      cases h : splitBy p ds with
      | nil => exact absurd h (splitBy_ne_nil p ds)
      | cons h0 t0 =>
        rw [h] at hseg
        rcases List.mem_cons.1 hseg with h1 | h1
        · subst h1
          rcases List.mem_cons.1 hc with h2 | h2
          · subst h2
            exact hd'
          · exact splitBy_sep_free p ds h0 (by rw [h]; exact List.mem_cons_self h0 t0) c h2
        · exact splitBy_sep_free p ds seg (by rw [h]; exact List.mem_cons_of_mem _ h1) c hc

/-- Splitting at an explicit separator occurrence, when the prefix before
it is separator-free. -/
theorem splitBy_append_sep (p : Char → Bool) (d : Char) (hd : p d = true)
    (b : Str) :
    ∀ a : Str, (∀ c ∈ a, p c = false) →
      splitBy p (a ++ d :: b) = a :: splitBy p b
  | [], _ => by rw [List.nil_append, splitBy_cons_eq, if_pos hd]
  | c :: a', ha => by
    have hc : p c = false := ha c (by simp)
    have ih := splitBy_append_sep p d hd b a' (fun x hx => ha x (List.mem_cons_of_mem _ hx))
    rw [List.cons_append, splitBy_cons_eq, if_neg (by simp [hc]), ih]

/-! ## Lemmas on sentence groups and the packing loop -/

theorem curOf_append : ∀ g₁ g₂ : List Str, curOf (g₁ ++ g₂) = curOf g₁ ++ curOf g₂
  | [], g₂ => rfl
  | s :: g₁, g₂ => by
    simp [curOf, curOf_append g₁ g₂]

/-- Unfolding equation for `renderChunk` on a cons cell. -/
theorem renderChunk_cons_eq (s : Str) (g : List Str) :
    renderChunk (s :: g) =
      if g.isEmpty then s ++ ['.'] else s ++ '.' :: ' ' :: renderChunk g := rfl

/-- The accumulator of a nonempty group is its chunk text plus one
trailing space. -/
theorem curOf_eq_render : ∀ g : List Str, g ≠ [] → curOf g = renderChunk g ++ [' ']
  | [], h => absurd rfl h
  | [s], _ => by simp [curOf, renderChunk]
  | s :: t :: g, _ => by
    have ih := curOf_eq_render (t :: g) (by simp)
    show s ++ '.' :: ' ' :: curOf (t :: g) = renderChunk (s :: t :: g) ++ [' ']
    rw [ih, renderChunk_cons_eq s (t :: g)]
    simp

/-- A nonempty group's chunk text ends with a period. -/
theorem renderChunk_concat_dot : ∀ g : List Str, g ≠ [] →
    ∃ y, renderChunk g = y ++ ['.']
  | [], h => absurd rfl h
  | [s], _ => ⟨s, by simp [renderChunk]⟩
  | s :: t :: g, _ => by
    obtain ⟨y, hy⟩ := renderChunk_concat_dot (t :: g) (by simp)
    refine ⟨s ++ '.' :: ' ' :: y, ?_⟩
    rw [renderChunk_cons_eq]
    simp [hy]

theorem renderChunk_length (g : List Str) (hg : g ≠ []) :
    (renderChunk g).length + 1 = (curOf g).length := by
  rw [curOf_eq_render g hg]
  simp

/-- Stripping the accumulator of a nonempty group of stripped, nonempty
sentences yields exactly the group's chunk text. -/
theorem strip_curOf : ∀ g : List Str, g ≠ [] →
    (∀ s ∈ g, s ≠ [] ∧ strip s = s) → strip (curOf g) = renderChunk g := by
  intro g hne hg
  cases g with
  | nil => exact absurd rfl hne
  | cons s g' =>
    obtain ⟨hne', hstr⟩ := hg s (List.mem_cons_self s g')
    cases s with
    | nil => exact absurd rfl hne'
    | cons c cs =>
      have hc : pySpace c = false := strip_self_head _ c cs hstr rfl
      have hcur : curOf ((c :: cs) :: g') = c :: (cs ++ '.' :: ' ' :: curOf g') := by
        simp [curOf]
      show dropTrail (List.dropWhile pySpace (curOf ((c :: cs) :: g'))) = _
      rw [hcur, List.dropWhile_cons, if_neg (by simp [hc]), ← hcur,
        curOf_eq_render _ (by simp), dropTrail_append_space]
      obtain ⟨y, hy⟩ := renderChunk_concat_dot ((c :: cs) :: g') (by simp)
      rw [hy]
      exact dropTrail_concat '.' (by decide) y

/-- Simulation: the raw accumulator loop `packLoop` computes exactly the
chunk texts of the groups built by `packGroups`. -/
theorem packLoop_eq_groups (maxc : Nat) :
    ∀ (segs g : List Str), (∀ s ∈ g, s ≠ [] ∧ strip s = s) →
      packLoop maxc segs (curOf g) = (packGroups maxc segs g).map renderChunk
  | [], g, hg => by
    show (if (curOf g).isEmpty then [] else [strip (curOf g)]) =
      (packGroups maxc [] g).map renderChunk
    cases g with
    | nil => rfl
    | cons s g' =>
      have h1 : strip (curOf (s :: g')) = renderChunk (s :: g') :=
        strip_curOf (s :: g') (by simp) hg
      have h2 : (curOf (s :: g')).isEmpty = false := by
        simp [curOf, List.isEmpty_iff]
      simp [packGroups, h1, h2]
  | seg :: rest, g, hg => by
    simp only [packLoop, packGroups]
    by_cases hs : (strip seg).isEmpty
    · rw [if_pos hs, if_pos hs]
      exact packLoop_eq_groups maxc rest g hg
    · rw [if_neg hs, if_neg hs]
      have hgoodseg : strip seg ≠ [] ∧ strip (strip seg) = strip seg :=
        ⟨by simpa [List.isEmpty_iff] using hs, strip_idem seg⟩
      have hcur1 : curOf [strip seg] = strip seg ++ ['.', ' '] := by simp [curOf]
      by_cases hlen : (curOf g).length + (strip seg ++ ['.', ' ']).length > maxc
      · rw [if_pos hlen, if_pos hlen, List.map_append]
        have ih := packLoop_eq_groups maxc rest [strip seg] (by
          intro x hx
          simp at hx
          subst hx
          exact hgoodseg)
        rw [← hcur1, ih]
        congr 1
        cases g with
        | nil => rfl
        | cons s g' =>
          have h2 : (curOf (s :: g')).isEmpty = false := by
            simp [curOf, List.isEmpty_iff]
          simp [h2, strip_curOf (s :: g') (by simp) hg]
      · rw [if_neg hlen, if_neg hlen]
        have hgood : ∀ x ∈ g ++ [strip seg], x ≠ [] ∧ strip x = x := by
          intro x hx
          rcases List.mem_append.1 hx with h1 | h1
          · exact hg x h1
          · simp at h1
            subst h1
            exact hgoodseg
        have ih := packLoop_eq_groups maxc rest (g ++ [strip seg]) hgood
        have hc2 : curOf g ++ (strip seg ++ ['.', ' ']) = curOf (g ++ [strip seg]) := by
          rw [curOf_append, hcur1]
        rw [hc2]
        exact ih

/-- Flattening the groups recovers the in-flight group followed by the
non-empty stripped sentences of the remaining segments. -/
theorem packGroups_flatten (maxc : Nat) :
    ∀ (segs g : List Str),
      (packGroups maxc segs g).flatten
        = g ++ (segs.map strip).filter (fun s => !s.isEmpty)
  | [], g => by
    cases g with
    | nil => simp [packGroups]
    | cons s g' => simp [packGroups]
  | seg :: rest, g => by
    simp only [packGroups, List.map_cons, List.filter_cons]
    by_cases hs : (strip seg).isEmpty
    · rw [if_pos hs]
      have hb : (!(strip seg).isEmpty) = false := by simp [hs]
      rw [hb]
      simp only [Bool.false_eq_true, if_false]
      exact packGroups_flatten maxc rest g
    · have hb : (!(strip seg).isEmpty) = true := by simp [hs]
      rw [if_neg hs, hb]
      simp only [if_true]
      by_cases hlen : (curOf g).length + (strip seg ++ ['.', ' ']).length > maxc
      · rw [if_pos hlen, List.flatten_append, packGroups_flatten maxc rest [strip seg]]
        cases g with
        | nil => simp
        | cons s0 g0 => simp
      · rw [if_neg hlen, packGroups_flatten maxc rest (g ++ [strip seg])]
        simp

/-- Every group emitted by `packGroups` is nonempty. -/
theorem packGroups_mem_ne_nil (maxc : Nat) :
    ∀ (segs g : List Str), ∀ g' ∈ packGroups maxc segs g, g' ≠ []
  | [], g => by
    intro g' hg'
    cases g with
    | nil => simp [packGroups] at hg'
    | cons s t =>
      simp [packGroups] at hg'
      subst hg'
      simp
  | seg :: rest, g => by
    intro g' hg'
    simp only [packGroups] at hg'
    by_cases hs : (strip seg).isEmpty
    · rw [if_pos hs] at hg'
      exact packGroups_mem_ne_nil maxc rest g g' hg'
    · rw [if_neg hs] at hg'
      by_cases hlen : (curOf g).length + (strip seg ++ ['.', ' ']).length > maxc
      · rw [if_pos hlen] at hg'
        rcases List.mem_append.1 hg' with h1 | h1
        · cases g with
          | nil => simp at h1
          | cons s0 t0 =>
            simp at h1
            subst h1
            simp
        · exact packGroups_mem_ne_nil maxc rest [strip seg] g' h1
      · rw [if_neg hlen] at hg'
        exact packGroups_mem_ne_nil maxc rest (g ++ [strip seg]) g' hg'

/-- Size invariant: every emitted group fits the character budget as an
accumulator, or is a single sentence. -/
theorem packGroups_size (maxc : Nat) :
    ∀ (segs g : List Str),
      (g = [] ∨ (curOf g).length ≤ maxc ∨ ∃ s, g = [s]) →
      ∀ g' ∈ packGroups maxc segs g,
        (curOf g').length ≤ maxc ∨ ∃ s, g' = [s]
  | [], g, hinv => by
    intro g' hg'
    cases g with
    | nil => simp [packGroups] at hg'
    | cons s t =>
      simp [packGroups] at hg'
      subst hg'
      rcases hinv with h | h | h
      · exact absurd h (by simp)
      · exact Or.inl h
      · exact Or.inr h
  | seg :: rest, g, hinv => by
    intro g' hg'
    simp only [packGroups] at hg'
    by_cases hs : (strip seg).isEmpty
    · rw [if_pos hs] at hg'
      exact packGroups_size maxc rest g hinv g' hg'
    · rw [if_neg hs] at hg'
      by_cases hlen : (curOf g).length + (strip seg ++ ['.', ' ']).length > maxc
      · rw [if_pos hlen] at hg'
        rcases List.mem_append.1 hg' with h1 | h1
        · cases g with
          | nil => simp at h1
          | cons s0 t0 =>
            simp at h1
            subst h1
            rcases hinv with h | h | h
            · exact absurd h (by simp)
            · exact Or.inl h
            · exact Or.inr h
        · exact packGroups_size maxc rest [strip seg]
            (Or.inr (Or.inr ⟨strip seg, rfl⟩)) g' h1
      · rw [if_neg hlen] at hg'
        apply packGroups_size maxc rest (g ++ [strip seg]) ?_ g' hg'
        right
        left
        rw [curOf_append]
        have hcur1 : curOf [strip seg] = strip seg ++ ['.', ' '] := by simp [curOf]
        rw [hcur1]
        simp only [List.length_append, List.length_cons, List.length_nil] at hlen ⊢
        omega

/-! ## Lemmas on sentence re-extraction from chunks -/

/-- A leading space does not change the extracted sentences. -/
theorem sentencesOf_cons_space (l : Str) :
    sentencesOf (' ' :: l) = sentencesOf l := by
  unfold sentencesOf
  rw [splitBy_cons_eq, if_neg (by simp [isDot])]
  cases h : splitBy isDot l with
  | nil => exact absurd h (splitBy_ne_nil isDot l)
  | cons h0 t0 =>
    have hstrip : strip (' ' :: h0) = strip h0 := by
      unfold strip
      rw [List.dropWhile_cons, if_pos (by simp [pySpace])]
    simp [hstrip]

/-- Extracting sentences from a rendered chunk recovers its group, when
the group consists of nonempty, stripped, dot-free sentences. -/
theorem sentencesOf_renderChunk :
    ∀ g : List Str,
      (∀ s ∈ g, s ≠ [] ∧ strip s = s ∧ ∀ c ∈ s, isDot c = false) →
      sentencesOf (renderChunk g) = g
  | [], _ => by simp [renderChunk, sentencesOf, splitBy, strip, dropTrail]
  | s :: g, hg => by
    obtain ⟨hne, hstr, hdot⟩ := hg s (List.mem_cons_self s g)
    cases g with
    | nil =>
      have hr : renderChunk [s] = s ++ ['.'] := by
        rw [renderChunk_cons_eq]
        simp
      rw [hr]
      unfold sentencesOf
      rw [show s ++ ['.'] = s ++ '.' :: ([] : Str) from rfl,
        splitBy_append_sep isDot '.' (by simp [isDot]) [] s hdot]
      simp only [List.map_cons, List.filter_cons, hstr]
      rw [if_pos (show (!s.isEmpty) = true by simp [List.isEmpty_iff, hne])]
      simp [splitBy, strip, dropTrail]
    | cons t g' =>
      have hr2 : renderChunk (s :: t :: g') = s ++ '.' :: ' ' :: renderChunk (t :: g') := by
        rw [renderChunk_cons_eq]
        simp
      rw [hr2]
      have ih := sentencesOf_renderChunk (t :: g')
        (fun x hx => hg x (List.mem_cons_of_mem _ hx))
      have h2 : sentencesOf (' ' :: renderChunk (t :: g')) = t :: g' := by
        rw [sentencesOf_cons_space]
        exact ih
      unfold sentencesOf
      rw [splitBy_append_sep isDot '.' (by simp [isDot]) (' ' :: renderChunk (t :: g')) s hdot]
      simp only [List.map_cons, List.filter_cons, hstr]
      rw [if_pos (show (!s.isEmpty) = true by simp [List.isEmpty_iff, hne])]
      show s :: sentencesOf (' ' :: renderChunk (t :: g')) = s :: t :: g'
      rw [h2]

/-- `split_text_into_chunks` equals the group view rendered to text. -/
theorem split_text_into_chunks_eq (text : Str) (maxc : Nat) :
    split_text_into_chunks text maxc
      = (packGroups maxc (splitBy isDot (normalizeText text)) []).map renderChunk :=
  packLoop_eq_groups maxc (splitBy isDot (normalizeText text)) [] (by simp)

/-- Every extracted sentence is nonempty, stripped, and dot-free. -/
theorem sentencesOf_good (l : Str) :
    ∀ s ∈ sentencesOf l, s ≠ [] ∧ strip s = s ∧ ∀ c ∈ s, isDot c = false := by
  intro s hs
  unfold sentencesOf at hs
  rw [List.mem_filter] at hs
  obtain ⟨hmem, hfil⟩ := hs
  rw [List.mem_map] at hmem
  obtain ⟨seg, hseg, rfl⟩ := hmem
  refine ⟨by simpa [List.isEmpty_iff] using hfil, strip_idem seg, ?_⟩
  intro c hc
  exact splitBy_sep_free isDot l seg hseg c (membership_strip c seg hc)

/-- Every sentence inside an emitted group is one of the input's
sentences. -/
theorem packGroups_mem_sentence (text : Str) (maxc : Nat) (g : List Str)
    (hgmem : g ∈ packGroups maxc (splitBy isDot (normalizeText text)) [])
    (s : Str) (hs : s ∈ g) : s ∈ sentencesOf (normalizeText text) := by
  have hflatten : s ∈ (packGroups maxc (splitBy isDot (normalizeText text)) []).flatten :=
    List.mem_flatten.2 ⟨g, hgmem, hs⟩
  rw [packGroups_flatten, List.nil_append] at hflatten
  exact hflatten

/-! ## Claim theorems: chunking (C1, C2, C10) -/

/-- C1, counterexample: the claim as stated fails on the text aaa with
maxChars 3.  The single chunk is aaa. of length 4 > 3, yet its lone
sentence aaa has length exactly 3, which does not strictly exceed 3. -/
theorem claimC1_counterexample : ¬ claimC1 (toL ("aaa")) 3 := by
  unfold claimC1
  decide

/-- C1 (amended): for every text and maxChars, every chunk returned by
`split_text_into_chunks` has length at most maxChars, or else the chunk is
exactly one sentence with its restored terminating period, where the
sentence's length is at least maxChars (so the chunk, sentence plus
period, exceeds the budget).  The amendment replaces the claim's strict
"exceeds maxChars" for the lone sentence by "is at least maxChars". -/
theorem chunk_length_bound (text : Str) (maxc : Nat) :
    ∀ chunk ∈ split_text_into_chunks text maxc,
      chunk.length ≤ maxc ∨
        ∃ s ∈ sentencesOf (normalizeText text),
          chunk = s ++ ['.'] ∧ maxc ≤ s.length := by
  intro chunk hchunk
  rw [split_text_into_chunks_eq, List.mem_map] at hchunk
  obtain ⟨g, hgmem, rfl⟩ := hchunk
  have hne := packGroups_mem_ne_nil maxc _ [] g hgmem
  have hsize := packGroups_size maxc _ [] (Or.inl rfl) g hgmem
  rcases hsize with hfit | ⟨s, rfl⟩
  · left
    have hlen := renderChunk_length g hne
    omega
  · have hs : s ∈ sentencesOf (normalizeText text) :=
      packGroups_mem_sentence text maxc [s] hgmem s (by simp)
    have hr : renderChunk [s] = s ++ ['.'] := by
      rw [renderChunk_cons_eq]
      simp
    by_cases hlen : s.length + 1 ≤ maxc
    · left
      rw [hr]
      simpa using hlen
    · right
      exact ⟨s, hs, hr, by omega⟩

/-- Witness for `chunk_length_bound` at text aaa with maxChars 3: the
chunk aaa. is a single sentence of length at least 3. -/
theorem chunk_length_bound_witness :
    toL ("aaa.") ∈ split_text_into_chunks (toL ("aaa")) 3 ∧
      ((toL ("aaa.")).length ≤ 3 ∨
        ∃ s ∈ sentencesOf (normalizeText (toL ("aaa"))),
          toL ("aaa.") = s ++ ['.'] ∧ 3 ≤ s.length) :=
  ⟨by decide, chunk_length_bound (toL ("aaa")) 3 (toL ("aaa.")) (by decide)⟩

/-- C2: concatenating the chunks returned by `split_text_into_chunks`,
modulo separator whitespace and the restored periods, reproduces exactly
the sequence of non-empty trimmed sentences of the normalized input, in
their original order, so no sentence is split across two chunks. -/
theorem chunks_reassemble_sentences (text : Str) (maxc : Nat) :
    ((split_text_into_chunks text maxc).map sentencesOf).flatten
      = sentencesOf (normalizeText text) := by
  rw [split_text_into_chunks_eq, List.map_map]
  have h1 : ∀ g ∈ packGroups maxc (splitBy isDot (normalizeText text)) [],
      (sentencesOf ∘ renderChunk) g = id g := by
    intro g hgmem
    show sentencesOf (renderChunk g) = g
    apply sentencesOf_renderChunk
    intro s hs
    exact sentencesOf_good (normalizeText text) s
      (packGroups_mem_sentence text maxc g hgmem s hs)
  rw [List.map_congr_left h1, List.map_id, packGroups_flatten, List.nil_append]
  rfl

/-- C10: every chunk returned by `split_text_into_chunks` is a non-empty
string ending in a period, and an input with no non-whitespace sentence
(such as the empty or whitespace-only string) yields the empty chunk
list, so no empty synthesis request is ever built. -/
theorem chunks_wellformed (text : Str) (maxc : Nat) :
    (∀ chunk ∈ split_text_into_chunks text maxc,
        chunk ≠ [] ∧ chunk.getLast? = some '.') ∧
      (sentencesOf (normalizeText text) = [] →
        split_text_into_chunks text maxc = []) := by
  constructor
  · intro chunk hchunk
    rw [split_text_into_chunks_eq, List.mem_map] at hchunk
    obtain ⟨g, hgmem, rfl⟩ := hchunk
    have hne := packGroups_mem_ne_nil maxc _ [] g hgmem
    obtain ⟨y, hy⟩ := renderChunk_concat_dot g hne
    rw [hy]
    exact ⟨by simp, List.getLast?_concat y⟩
  · intro hempty
    rw [split_text_into_chunks_eq]
    cases hpg : packGroups maxc (splitBy isDot (normalizeText text)) [] with
    | nil => simp
    | cons g gs =>
      exfalso
      have hne := packGroups_mem_ne_nil maxc (splitBy isDot (normalizeText text)) [] g
        (by rw [hpg]; exact List.mem_cons_self g gs)
      have h0 : ((splitBy isDot (normalizeText text)).map strip).filter
          (fun s => !s.isEmpty) = [] := hempty
      have hflat := packGroups_flatten maxc (splitBy isDot (normalizeText text)) []
      rw [hpg, h0, List.append_nil] at hflat
      have hg0 : g = [] := by
        rw [List.flatten_cons] at hflat
        exact (List.append_eq_nil.1 hflat).1
      exact hne hg0

/-- Witness for `chunks_wellformed` at a whitespace-only input. -/
theorem chunks_wellformed_witness :
    sentencesOf (normalizeText (toL ("  "))) = [] ∧
      split_text_into_chunks (toL ("  ")) 4000 = [] :=
  ⟨by decide, (chunks_wellformed (toL ("  ")) 4000).2 (by decide)⟩

/-! ## Lemmas on the audio synthesis loop -/

/-- The synthesis loop keeps exactly the chunks whose 1-based position
succeeds, in order. -/
theorem audioLoop_eq_filter :
    ∀ (cs : List Str) (succ : Nat → Bool) (i : Nat),
      audioLoop cs succ i
        = ((List.enumFrom i cs).filter (fun p => succ p.1)).map Prod.snd
  | [], _, _ => rfl
  | c :: rest, succ, i => by
    simp only [audioLoop, List.enumFrom, List.filter_cons]
    by_cases h : succ i
    · rw [if_pos h]
      simp [audioLoop_eq_filter rest succ (i + 1), h]
    · rw [if_neg h]
      simp [audioLoop_eq_filter rest succ (i + 1), h]

/-- If some attempted position succeeds, the loop keeps something. -/
theorem audioLoop_ne_nil :
    ∀ (cs : List Str) (succ : Nat → Bool) (i j : Nat),
      j < cs.length → succ (i + j) = true → audioLoop cs succ i ≠ []
  | [], _, _, j, hj, _ => by simp at hj
  | c :: rest, succ, i, 0, _, hsucc => by
    simp only [audioLoop, Nat.add_zero] at *
    rw [hsucc]
    simp
  | c :: rest, succ, i, j + 1, hj, hsucc => by
    simp only [audioLoop]
    by_cases h : succ i
    · rw [if_pos h]
      simp
    · rw [if_neg h]
      apply audioLoop_ne_nil rest succ (i + 1) j
      · simpa using Nat.lt_of_succ_lt_succ (by simpa using hj)
      · rw [show i + 1 + j = i + (j + 1) by omega]
        exact hsucc

/-- If every attempted position fails, the loop keeps nothing. -/
theorem audioLoop_all_fail :
    ∀ (cs : List Str) (succ : Nat → Bool) (i : Nat),
      (∀ j, i ≤ j → j < i + cs.length → succ j = false) →
      audioLoop cs succ i = []
  | [], _, _, _ => rfl
  | c :: rest, succ, i, h => by
    have h0 : succ i = false := h i (Nat.le_refl i) (by simp)
    simp only [audioLoop, h0, Bool.false_eq_true, if_false]
    exact audioLoop_all_fail rest succ (i + 1)
      (fun j h1 h2 => h j (by omega) (by simp only [List.length_cons]; omega))

/-! ## Claim theorems: audio assembly (C3, C4) -/

/-- C3: whenever at least one chunk synthesis succeeds, `generate_audio`
produces an artifact whose content is the concatenation of exactly the
surviving chunk files, in original chunk (synthesis) order; with a single
survivor the artifact is that chunk file itself. -/
theorem generate_audio_concat (script : Str) (succ : Nat → Bool)
    (h : ∃ i, i < (split_text_into_chunks script 4000).length ∧ succ (i + 1) = true) :
    generate_audio script succ
      = some ((((List.enumFrom 1 (split_text_into_chunks script 4000)).filter
          (fun p => succ p.1)).map Prod.snd).flatten) := by
  have hchar := audioLoop_eq_filter (split_text_into_chunks script 4000) succ 1
  obtain ⟨i, hi, hsucc⟩ := h
  have hne : audioLoop (split_text_into_chunks script 4000) succ 1 ≠ [] :=
    audioLoop_ne_nil _ succ 1 i hi (by rw [show 1 + i = i + 1 by omega]; exact hsucc)
  show (match audioLoop (split_text_into_chunks script 4000) succ 1 with
    | [] => none
    | [f] => some f
    | f :: g :: fs => some ((f :: g :: fs).flatten)) = _
  cases hL : audioLoop (split_text_into_chunks script 4000) succ 1 with
  | nil => exact absurd hL hne
  | cons f fs =>
    cases fs with
    | nil =>
      rw [hchar] at hL
      rw [hL]
      simp
    | cons g fs' =>
      rw [hchar] at hL
      rw [hL]

/-- Witness for `generate_audio_concat` with an always-succeeding
synthesizer on a one-chunk script. -/
theorem generate_audio_concat_witness :
    (∃ i, i < (split_text_into_chunks (toL ("hi")) 4000).length ∧
        (fun _ => true) (i + 1) = true) ∧
      generate_audio (toL ("hi")) (fun _ => true)
        = some ((((List.enumFrom 1 (split_text_into_chunks (toL ("hi")) 4000)).filter
            (fun p => (fun _ => true) p.1)).map Prod.snd).flatten) :=
  ⟨⟨0, by decide, rfl⟩,
    generate_audio_concat (toL ("hi")) (fun _ => true) ⟨0, by decide, rfl⟩⟩

/-- C4: when every per-chunk synthesis fails, `generate_audio` fails the
step fatally: it returns `none` and writes no narration artifact. -/
theorem generate_audio_all_fail (script : Str) (succ : Nat → Bool)
    (h : ∀ i, 1 ≤ i → i ≤ (split_text_into_chunks script 4000).length →
      succ i = false) :
    generate_audio script succ = none := by
  have hL : audioLoop (split_text_into_chunks script 4000) succ 1 = [] :=
    audioLoop_all_fail _ succ 1 (fun j h1 h2 => h j h1 (by omega))
  show (match audioLoop (split_text_into_chunks script 4000) succ 1 with
    | [] => none
    | [f] => some f
    | f :: g :: fs => some ((f :: g :: fs).flatten)) = none
  rw [hL]

/-- Witness for `generate_audio_all_fail` with an always-failing
synthesizer. -/
theorem generate_audio_all_fail_witness :
    (∀ i, 1 ≤ i → i ≤ (split_text_into_chunks (toL ("hi")) 4000).length →
        (fun _ => false) i = false) ∧
      generate_audio (toL ("hi")) (fun _ => false) = none :=
  ⟨fun _ _ _ => rfl,
    generate_audio_all_fail (toL ("hi")) (fun _ => false) (fun _ _ _ => rfl)⟩

/-! ## Claim theorems: script generation (C5, C6, C7) -/

theorem scriptItemsGo_length (articles : List Article) (gen : Article → Nat → Str) :
    ∀ (fuel i : Nat),
      (scriptItemsGo articles gen fuel i).length = min (articles.length - i) fuel
  | 0, i => by simp [scriptItemsGo]
  | fuel + 1, i => by
    simp only [scriptItemsGo]
    cases hget : articles.get? i with
    | none =>
      have hle : articles.length ≤ i := List.get?_eq_none.1 hget
      simp only [List.length_nil]
      omega
    | some a =>
      have hlt : i < articles.length := by
        by_contra hcon
        rw [List.get?_eq_none.2 (by omega)] at hget
        cases hget
      have ih := scriptItemsGo_length articles gen fuel (i + 1)
      simp only [List.length_cons, ih]
      omega

/-- C5: for every article list of length n, `generate_hindi_script`
builds exactly min(n, 10) item bodies; in particular with fewer than 10
articles it builds exactly one per article, never fewer and never more. -/
theorem news_items_length (articles : List Article) (gen : Article → Nat → Str) :
    (news_items articles gen).length = min articles.length 10 := by
  show (scriptItemsGo articles gen 10 0).length = min articles.length 10
  rw [scriptItemsGo_length]
  omega

/-- Unfolding of `generate_single_news_item` after a well-formed first
response. -/
theorem generate_single_news_item_ok (a : Article) (n : Nat)
    (oracle : Nat → GenResponse) (t : Str) (h0 : oracle 0 = .ok t) :
    generate_single_news_item a n oracle =
      if wordCount (strip t) < 80 then
        match oracle 1 with
        | .raise => create_fallback_item a n
        | .httpError => strip t
        | .noCandidates => strip t
        | .badContent => create_fallback_item a n
        | .ok t2 => strip t2
      else strip t := by
  unfold generate_single_news_item
  rw [h0]

/-- C6, counterexample: a well-formed first response of one word (below
the 80-word minimum) followed by a well-formed one-word retry makes
`generate_single_news_item` return the retry text, not the deterministic
fallback body, contradicting the claim that a too-short response yields
the fallback. -/
theorem claimC6_counterexample :
    wordCount (strip (toL ("hi"))) < 80 ∧
      generate_single_news_item ⟨toL ("T"), toL ("S"), [], [], []⟩ 1
          (fun k => if k == 0 then GenResponse.ok (toL ("hi"))
            else GenResponse.ok (toL ("bye")))
        ≠ create_fallback_item ⟨toL ("T"), toL ("S"), [], [], []⟩ 1 ∧
      generate_single_news_item ⟨toL ("T"), toL ("S"), [], [], []⟩ 1
          (fun k => if k == 0 then GenResponse.ok (toL ("hi"))
            else GenResponse.ok (toL ("bye")))
        = strip (toL ("bye")) := by
  refine ⟨by decide, by decide, by decide⟩

/-- C6 (amended): a missing or malformed first response (exception,
non-success status, missing or empty candidates, malformed content)
yields the deterministic fallback body built from the article's title,
with no further generation call.  A well-formed but too-short first
response is instead retried once: the retry's text is returned when the
retry is well-formed (whatever its length); the original short text is
returned when the retry has a non-success status or no candidates; only a
retry that raises or carries a malformed candidate falls back.  In every
case exactly one item body is returned. -/
theorem generate_single_news_item_cases (a : Article) (n : Nat)
    (oracle : Nat → GenResponse) :
    (badFirst (oracle 0) →
        generate_single_news_item a n oracle = create_fallback_item a n) ∧
      (∀ t, oracle 0 = .ok t → 80 ≤ wordCount (strip t) →
        generate_single_news_item a n oracle = strip t) ∧
      (∀ t, oracle 0 = .ok t → wordCount (strip t) < 80 →
        ((oracle 1 = .raise ∨ oracle 1 = .badContent) →
            generate_single_news_item a n oracle = create_fallback_item a n) ∧
          ((oracle 1 = .httpError ∨ oracle 1 = .noCandidates) →
            generate_single_news_item a n oracle = strip t) ∧
          (∀ t2, oracle 1 = .ok t2 →
            generate_single_news_item a n oracle = strip t2)) := by
  refine ⟨?_, ?_, ?_⟩
  · intro hbad
    cases h0 : oracle 0 with
    | ok t => exact absurd (h0 ▸ hbad) (by simp [badFirst])
    | raise => simp [generate_single_news_item, h0]
    | httpError => simp [generate_single_news_item, h0]
    | noCandidates => simp [generate_single_news_item, h0]
    | badContent => simp [generate_single_news_item, h0]
  · intro t h0 hlen
    rw [generate_single_news_item_ok a n oracle t h0, if_neg (by omega)]
  · intro t h0 hlen
    rw [generate_single_news_item_ok a n oracle t h0, if_pos hlen]
    refine ⟨?_, ?_, ?_⟩
    · rintro (h1 | h1) <;> rw [h1]
    · rintro (h1 | h1) <;> rw [h1]
    · intro t2 h1
      rw [h1]

/-- Witness for `generate_single_news_item_cases`: a first response with
no candidates yields the fallback body. -/
theorem generate_single_news_item_cases_witness :
    generate_single_news_item ⟨toL ("T"), toL ("S"), [], [], []⟩ 2
        (fun _ => GenResponse.noCandidates)
      = create_fallback_item ⟨toL ("T"), toL ("S"), [], [], []⟩ 2 :=
  (generate_single_news_item_cases ⟨toL ("T"), toL ("S"), [], [], []⟩ 2
    (fun _ => GenResponse.noCandidates)).1 trivial

/-- C7: `generate_single_news_item` issues at most two generation calls
(so any failure is retried at most once), never raises, and always
returns one item body: either the deterministic fallback or the stripped
text of one of its at most two responses.  A transport-level failure of
the first call (non-success status or exception) falls back immediately
with no retry. -/
theorem generate_single_news_item_total (a : Article) (n : Nat)
    (oracle : Nat → GenResponse) :
    numCalls oracle ≤ 2 ∧
      (oracle 0 = .httpError →
        numCalls oracle = 1 ∧
          generate_single_news_item a n oracle = create_fallback_item a n) ∧
      (oracle 0 = .raise →
        generate_single_news_item a n oracle = create_fallback_item a n) ∧
      (generate_single_news_item a n oracle = create_fallback_item a n ∨
        ∃ k t, k ≤ 1 ∧ oracle k = .ok t ∧
          generate_single_news_item a n oracle = strip t) := by
  refine ⟨?_, ?_, ?_, ?_⟩
  · unfold numCalls
    cases h0 : oracle 0 with
    | ok t =>
      show (if wordCount (strip t) < 80 then 2 else 1) ≤ 2
      split <;> omega
    | raise => show (1 : Nat) ≤ 2; omega
    | httpError => show (1 : Nat) ≤ 2; omega
    | noCandidates => show (1 : Nat) ≤ 2; omega
    | badContent => show (1 : Nat) ≤ 2; omega
  · intro h0
    constructor
    · unfold numCalls
      rw [h0]
    · simp [generate_single_news_item, h0]
  · intro h0
    simp [generate_single_news_item, h0]
  · cases h0 : oracle 0 with
    | raise => exact Or.inl (by simp [generate_single_news_item, h0])
    | httpError => exact Or.inl (by simp [generate_single_news_item, h0])
    | noCandidates => exact Or.inl (by simp [generate_single_news_item, h0])
    | badContent => exact Or.inl (by simp [generate_single_news_item, h0])
    | ok t =>
      by_cases hlen : wordCount (strip t) < 80
      · rw [generate_single_news_item_ok a n oracle t h0, if_pos hlen]
        cases h1 : oracle 1 with
        | raise => exact Or.inl rfl
        | badContent => exact Or.inl rfl
        | httpError => exact Or.inr ⟨0, t, by omega, h0, rfl⟩
        | noCandidates => exact Or.inr ⟨0, t, by omega, h0, rfl⟩
        | ok t2 => exact Or.inr ⟨1, t2, by omega, h1, rfl⟩
      · rw [generate_single_news_item_ok a n oracle t h0, if_neg hlen]
        exact Or.inr ⟨0, t, by omega, h0, rfl⟩

/-- Witness for `generate_single_news_item_total`: a non-success status
on the first call means one single call and the fallback body. -/
theorem generate_single_news_item_total_witness :
    numCalls (fun _ => GenResponse.httpError) = 1 ∧
      generate_single_news_item ⟨toL ("T"), toL ("S"), [], [], []⟩ 3
          (fun _ => GenResponse.httpError)
        = create_fallback_item ⟨toL ("T"), toL ("S"), [], [], []⟩ 3 :=
  (generate_single_news_item_total ⟨toL ("T"), toL ("S"), [], [], []⟩ 3
    (fun _ => GenResponse.httpError)).2.1 rfl

/-! ## Claim theorems: news relevance and deduplication (C8, C9) -/

/-- C8, counterexample: the claim's relevance formula (no separator
between title and summary) declares the title parliamen with summary t
relevant, because the plain concatenation parliament contains the keyword
parliament; the code joins the two with a space, finds no keyword in
parliamen t, and returns false. -/
theorem claimC8_counterexample :
    claimC8_relevant (toL ("parliamen")) (toL ("t")) = true ∧
      is_upsc_relevant (toL ("parliamen")) (toL ("t")) = false := by
  refine ⟨by decide, by decide⟩

/-- C8 (amended): `is_upsc_relevant(title, summary)` returns true iff the
lowercased concatenation of title, a single joining space, and summary
contains at least one relevance keyword and no exclusion keyword; an
exclusion keyword always forces a false result even when a relevance
keyword is also present. -/
theorem is_upsc_relevant_spec (title summary : Str) :
    (is_upsc_relevant title summary =
        (upsc_keywords.any
            (fun w => containsSub w (pyLower (title ++ [' '] ++ summary))) &&
          !(skip_keywords.any
            (fun w => containsSub w (pyLower (title ++ [' '] ++ summary)))))) ∧
      (skip_keywords.any
          (fun w => containsSub w (pyLower (title ++ [' '] ++ summary))) = true →
        is_upsc_relevant title summary = false) := by
  constructor
  · simp only [is_upsc_relevant]
    by_cases h : skip_keywords.any
        (fun w => containsSub w (pyLower (title ++ [' '] ++ summary))) = true
    · rw [if_pos h, h]
      simp
    · have h' : skip_keywords.any
          (fun w => containsSub w (pyLower (title ++ [' '] ++ summary))) = false :=
        Bool.not_eq_true _ |>.mp h
      rw [if_neg h, h', Bool.not_false, Bool.and_true]
  · intro h
    simp only [is_upsc_relevant]
    rw [if_pos h]

/-- Witness for `is_upsc_relevant_spec` at the spec's scenario: a cricket
title whose summary mentions ipl is excluded although india matches. -/
theorem is_upsc_relevant_spec_witness :
    skip_keywords.any (fun w => containsSub w
        (pyLower (toL ("Cricket World Cup Final Result") ++ [' '] ++
          toL ("The ipl season in india")))) = true ∧
      is_upsc_relevant (toL ("Cricket World Cup Final Result"))
          (toL ("The ipl season in india")) = false :=
  ⟨by decide,
    (is_upsc_relevant_spec (toL ("Cricket World Cup Final Result"))
      (toL ("The ipl season in india"))).2 (by decide)⟩

/-- Articles retained by the deduplication loop have unseen keys and are
each the first article with their key in the remaining input. -/
theorem dedupLoop_find :
    ∀ (arts : List Article) (seen : List Str),
      ∀ a ∈ dedupLoop arts seen,
        seen.contains (title_key a) = false ∧
          arts.find? (fun x => title_key x == title_key a) = some a
  | [], _ => by simp [dedupLoop]
  | b :: rest, seen => by
    intro a ha
    simp only [dedupLoop] at ha
    by_cases hb : seen.contains (title_key b) = true
    · rw [if_pos hb] at ha
      obtain ⟨hnot, hfind⟩ := dedupLoop_find rest seen a ha
      have hne : (title_key b == title_key a) = false := by
        cases hb2 : title_key b == title_key a
        · rfl
        · exfalso
          have heq : title_key b = title_key a := beq_iff_eq.1 hb2
          rw [heq] at hb
          rw [hb] at hnot
          cases hnot
      refine ⟨hnot, ?_⟩
      rw [List.find?_cons, hne]
      exact hfind
    · rw [if_neg hb] at ha
      have hbf : seen.contains (title_key b) = false :=
        Bool.not_eq_true _ |>.mp hb
      rcases List.mem_cons.1 ha with rfl | ha'
      · refine ⟨hbf, ?_⟩
        rw [List.find?_cons, beq_self_eq_true]
      · obtain ⟨hnot, hfind⟩ :=
          dedupLoop_find rest (title_key b :: seen) a ha'
        rw [List.contains_cons] at hnot
        rcases Bool.or_eq_false_iff.1 hnot with ⟨hn1, hn2⟩
        have h1 : (title_key b == title_key a) = false := by
          rw [beq_eq_false_iff_ne] at hn1 ⊢
          exact fun e => hn1 e.symm
        refine ⟨hn2, ?_⟩
        rw [List.find?_cons, h1]
        exact hfind

/-- The deduplication loop never keeps two articles with the same key. -/
theorem dedupLoop_pairwise :
    ∀ (arts : List Article) (seen : List Str),
      (dedupLoop arts seen).Pairwise (fun a b => title_key a ≠ title_key b)
  | [], _ => by simp [dedupLoop]
  | b :: rest, seen => by
    simp only [dedupLoop]
    by_cases hb : seen.contains (title_key b) = true
    · rw [if_pos hb]
      exact dedupLoop_pairwise rest seen
    · rw [if_neg hb]
      refine List.Pairwise.cons ?_ (dedupLoop_pairwise rest (title_key b :: seen))
      intro a ha heq
      have hnot := (dedupLoop_find rest (title_key b :: seen) a ha).1
      rw [List.contains_cons, heq] at hnot
      simp at hnot

theorem insertSorted_perm (a : Article) :
    ∀ l : List Article, (insertSorted a l).Perm (a :: l)
  | [] => List.Perm.refl _
  | b :: rest => by
    unfold insertSorted
    split
    · exact ((insertSorted_perm a rest).cons b).trans (List.Perm.swap a b rest)
    · exact List.Perm.refl _

theorem sortArticles_perm : ∀ l : List Article, (sortArticles l).Perm l
  | [] => List.Perm.refl _
  | a :: rest =>
    (insertSorted_perm a (sortArticles rest)).trans
      ((sortArticles_perm rest).cons a)

/-- C9: the output of `fetch_all_news` contains at most one article per
case-folded 50-character title prefix, and each retained article is the
first-seen article with its prefix in collection order; later articles
sharing the prefix are dropped. -/
theorem fetch_all_news_post_dedup (arts : List Article) :
    (fetch_all_news_post arts).Pairwise (fun a b => title_key a ≠ title_key b) ∧
      ∀ a ∈ fetch_all_news_post arts,
        arts.find? (fun x => title_key x == title_key a) = some a := by
  have hperm := sortArticles_perm (dedupLoop arts [])
  constructor
  · apply List.Pairwise.sublist (List.take_sublist _ _)
    exact (hperm.pairwise_iff (fun h e => h e.symm)).2 (dedupLoop_pairwise arts [])
  · intro a ha
    have ha2 : a ∈ sortArticles (dedupLoop arts []) := List.mem_of_mem_take ha
    have ha3 : a ∈ dedupLoop arts [] := hperm.mem_iff.1 ha2
    exact (dedupLoop_find arts [] a ha3).2

/-- Witness for `fetch_all_news_post_dedup`: of two articles whose titles
share the case-folded 50-character prefix, the first-seen one is retained
and is what the key lookup finds. -/
theorem fetch_all_news_post_dedup_witness :
    (⟨toL ("Dup"), [], [], [], []⟩ : Article) ∈
        fetch_all_news_post
          [⟨toL ("Dup"), [], [], [], []⟩, ⟨toL ("DUP"), [], [], [], []⟩] ∧
      [(⟨toL ("Dup"), [], [], [], []⟩ : Article),
          ⟨toL ("DUP"), [], [], [], []⟩].find?
          (fun x => title_key x == title_key ⟨toL ("Dup"), [], [], [], []⟩)
        = some ⟨toL ("Dup"), [], [], [], []⟩ :=
  ⟨by decide,
    (fetch_all_news_post_dedup
      [⟨toL ("Dup"), [], [], [], []⟩, ⟨toL ("DUP"), [], [], [], []⟩]).2
      ⟨toL ("Dup"), [], [], [], []⟩ (by decide)⟩

end Upsc
